import Mathlib

/-!
# soax-test-task: listener, random dialer and error classifier

A shallow embedding of `src/common.go`, `src/listener.go` and
`src/random_dialer.go`.

* Go `error` values are a finite tree `GoError`: `nil`, the sentinel `io.EOF`,
  a value without an `Unwrap` method, or a value with one.  Every non-nil value
  carries whether it implements `net.Error` and what `Timeout()` reports.
* The buffered channel `connQuotes` is its capacity and its current length;
  a send on a full channel and a receive on an empty one block (`none`).
* Goroutines are interleaved by an explicit list of `Action`s.
* Go `int` is 64 bits wide with wrap-around arithmetic.
-/

namespace Soax

/-! ## Go error values -/

/-- Go `error` interface values.  `netErr = none`: the dynamic type does not
implement `net.Error`; `netErr = some b`: it does and `Timeout()` returns `b`. -/
inductive GoError where
  /-- The nil interface value. -/
  | nil : GoError
  /-- The sentinel `io.EOF` (an `*errors.errorString`: no `Unwrap`, no `Timeout`). -/
  | eof : GoError
  /-- A non-nil error whose type has no `Unwrap() error` method. -/
  | leaf (msg : String) (netErr : Option Bool) : GoError
  /-- A non-nil error whose type has an `Unwrap() error` method returning `inner`
  (which may be nil, as for a `*net.OpError` with a nil `Err`). -/
  | wrap (msg : String) (netErr : Option Bool) (inner : GoError) : GoError
  deriving DecidableEq, Repr

namespace GoError

/-- Go `err != nil`. -/
def isNil : GoError → Bool
  | nil => true
  | _ => false

/-- The type assertion `cause.(interface{ Unwrap() error })`: the result of
`Unwrap()` when the assertion succeeds, `none` when `ok` is false. -/
def asUnwrap : GoError → Option GoError
  | wrap _ _ inner => some inner
  | _ => none

/-- The type assertion `cause.(net.Error)` followed by `Timeout()`: `none` when
`ok` is false. -/
def asNetError : GoError → Option Bool
  | nil => none
  | eof => none
  | leaf _ ne => ne
  | wrap _ ne _ => ne

end GoError

open GoError

/-- The function `errors.Wrap(err, message)` of github.com/pkg/errors (v0.9): nil for a nil
`err`, otherwise a `*withStack` around a `*withMessage` around `err`; both
layers have `Unwrap` and neither implements `net.Error`. -/
def errorsWrap (err : GoError) (message : String) : GoError :=
  match err with
  | .nil => .nil
  | e => .wrap "withStack" none (.wrap message none e)

/-- The constant `timeoutStr` of common.go. -/
def timeoutStr : String := "timeout"

/-- The `for` loop of `classifyNetError`: replace `cause` by `cause.Unwrap()`
while the type assertion succeeds, and leave the loop when it fails. -/
def unwrapLoop : GoError → GoError
  | .wrap _ _ inner => unwrapLoop inner
  | cause => cause

/-- The function `classifyNetError` of common.go. -/
def classifyNetError (err : GoError) : String :=
  let cause := unwrapLoop err
  match cause.asNetError with
  | some true => timeoutStr
  | _ => "unknown_error"

/-! ### The classification rule in the words of the specification -/

/-- One step of the cause chain: `e` offers an unwrap and it yields `c`. -/
def UnwrapsTo (e c : GoError) : Prop := e.asUnwrap = some c

/-- The error `r` is the root cause of `e`: reached by unwrapping repeatedly, and `r`
itself offers no further unwrap. -/
def IsRootCause (e r : GoError) : Prop :=
  Relation.ReflTransGen UnwrapsTo e r ∧ r.asUnwrap = none

/-- The error `e` under `n` layers of `errors.Wrap(_, message)`. -/
def wrapTimes (message : String) : Nat → GoError → GoError
  | 0, e => e
  | n + 1, e => errorsWrap (wrapTimes message n e) message

/-! ## random_dialer.go -/

/-- How a call ends: it returns a value, it panics, or it has not returned
(blocked on the network or on a channel). -/
inductive Outcome (α : Type) where
  | returned (a : α) : Outcome α
  | panicked : Outcome α
  | blocked : Outcome α
  deriving DecidableEq, Repr

/-- Go `int` arithmetic: 64-bit two's complement wrap-around. -/
def wrapInt (x : Int) : Int := (x + 2 ^ 63) % 2 ^ 64 - 2 ^ 63

/-- The call `rand.Intn(n)`: panics when `n <= 0`, otherwise a value of `[0, n)`.  The
generator's state is the natural number `draw`, reduced into the range. -/
def randIntn (draw : Nat) (n : Int) : Option Int :=
  if n ≤ 0 then none else some ((draw : Int) % n)

/-- The fields of `RandomDialer` the trial logic reads.  A finite `float32`
is the rational it denotes, and `<` on finite floats is the order of those
rationals. -/
structure RandomDialer where
  minTTL : Int
  maxTTL : Int
  badDialChance : ℚ
  deriving DecidableEq

/-- The constructor `NewRandomDialer`: `int(minTTL)` and `int(maxTTL)` of 64-bit durations. -/
def NewRandomDialer (minTTL maxTTL : Int) (badDialChance : ℚ) : RandomDialer :=
  { minTTL := wrapInt minTTL, maxTTL := wrapInt maxTTL, badDialChance := badDialChance }

/-- The method `calculateTTL`: `rand.Intn(d.maxTTL-d.minTTL+1) + d.minTTL`; `none` when
`rand.Intn` panics. -/
def RandomDialer.calculateTTL (d : RandomDialer) (draw : Nat) : Option Int :=
  match randIntn draw (wrapInt (wrapInt (d.maxTTL - d.minTTL) + 1)) with
  | none => none
  | some r => some (wrapInt (r + d.minTTL))

/-- The method `isBadDial`: `rand.Float32() < d.badDialChance`, `f` being the value
`rand.Float32()` returned. -/
def RandomDialer.isBadDial (d : RandomDialer) (f : ℚ) : Bool :=
  decide (f < d.badDialChance)

/-- The calls made on a connection. -/
inductive ConnOp where
  | setDeadline | read | write | close
  deriving DecidableEq, Repr

/-- The `for` loop of `handleConn`.  `script` lists what the successive calls
on the connection return (nil: success); a call past the end of the script has
not returned.  `ops` is the log of the calls made so far. -/
def handleConnLoop : List GoError → List ConnOp → Outcome GoError × List ConnOp
  | [], ops => (.blocked, ops ++ [.read])
  | rd :: rest, ops =>
    if !rd.isNil then (.returned rd, ops ++ [.read])
    else
      match rest with
      | [] => (.blocked, ops ++ [.read, .write])
      | wr :: rest2 =>
        if !wr.isNil then (.returned wr, ops ++ [.read, .write])
        else handleConnLoop rest2 (ops ++ [.read, .write])

/-- The method `handleConn`: the error it returns and the calls it made on the connection. -/
def RandomDialer.handleConn (d : RandomDialer) (draw : Nat) (script : List GoError) :
    Outcome GoError × List ConnOp :=
  match d.calculateTTL draw with
  | none => (.panicked, [])
  | some _ttl =>
    match script with
    | [] => (.blocked, [.setDeadline])
    | sd :: rest =>
      if !sd.isNil then (.returned (errorsWrap sd "set deadline"), [.setDeadline])
      else handleConnLoop rest [.setDeadline]

/-- The method `dial`: `dialErr` is the error of `net.Dial`.  The deferred `conn.Close()`
runs when the function returns or panics after the `defer` statement. -/
def RandomDialer.dial (d : RandomDialer) (isBad : Bool) (dialErr : GoError) (draw : Nat)
    (script : List GoError) : Outcome GoError × List ConnOp :=
  if !dialErr.isNil then (.returned (errorsWrap dialErr "dial"), [])
  else if isBad then (.returned .nil, [])
  else
    match d.handleConn draw script with
    | (.returned err, ops) =>
      if !err.isNil then
        if classifyNetError err ≠ timeoutStr then
          (.returned (errorsWrap err "handle conn"), ops ++ [.close])
        else (.returned .nil, ops ++ [.close])
      else (.returned .nil, ops ++ [.close])
    | (.panicked, ops) => (.panicked, ops ++ [.close])
    | (.blocked, ops) => (.blocked, ops)

/-- The goroutine `Run` starts on a tick: whether it logged "can't dial". -/
def RandomDialer.runTrial (d : RandomDialer) (f : ℚ) (dialErr : GoError) (draw : Nat)
    (script : List GoError) : Outcome Bool :=
  match (d.dial (d.isBadDial f) dialErr draw script).1 with
  | .returned err => .returned (!err.isNil)
  | .panicked => .panicked
  | .blocked => .blocked

/-! ## listener.go -/

/-- A buffered channel of empty structs: capacity, number of queued elements, and
the number of sends and receives completed so far.  With capacity 0 nothing is
ever queued. -/
structure Chan where
  cap : Nat
  len : Nat
  sent : Nat
  received : Nat
  deriving DecidableEq, Repr

/-- The call `make(chan struct, cap)`. -/
def Chan.make (cap : Nat) : Chan := { cap := cap, len := 0, sent := 0, received := 0 }

/-- The send `c <- struct`: `none` when the buffer is full (the sender blocks). -/
def Chan.send (c : Chan) : Option Chan :=
  if c.len < c.cap then some { c with len := c.len + 1, sent := c.sent + 1 } else none

/-- The receive `<-c`: `none` when the buffer is empty (the receiver blocks). -/
def Chan.recv (c : Chan) : Option Chan :=
  if 0 < c.len then some { c with len := c.len - 1, received := c.received + 1 } else none

/-- The `Listener` struct: the quota channel and the field `maxConns`, which
`NewListener` never assigns. -/
structure Listener where
  connQuotes : Chan
  maxConns : Int
  deriving DecidableEq, Repr

/-- The loop of `generateConnQuotes`, `n` iterations left. -/
def Listener.sendQuotes (l : Listener) : Nat → Option Listener
  | 0 => some l
  | n + 1 =>
    match l.connQuotes.send with
    | none => none
    | some c => Listener.sendQuotes { l with connQuotes := c } n

/-- The method `generateConnQuotes(count)`: `count` sends, none for `count <= 0`; `none`
when a send blocks. -/
def Listener.generateConnQuotes (l : Listener) (count : Int) : Option Listener :=
  l.sendQuotes count.toNat

/-- The constructor `NewListener(_, maxConns)`: `make` panics for a negative size. -/
def NewListener (maxConns : Int) : Outcome Listener :=
  if maxConns < 0 then .panicked
  else
    match Listener.generateConnQuotes
        { connQuotes := Chan.make maxConns.toNat, maxConns := 0 } maxConns with
    | none => .blocked
    | some l => .returned l

/-- The listener together with the package-level metrics: the gauge
`active_connections`, the counter `total_connections`, the labels on which
`total_disconnections` was incremented (latest last), and the number of
connections the supervisors closed. -/
structure World where
  l : Listener
  activeConnsGauge : Int
  totalConnectionsCounter : Nat
  totalDisconnectionsCounter : List String
  closedConns : Nat
  deriving DecidableEq, Repr

/-- The state a fresh listener starts in. -/
def World.init (l : Listener) : World :=
  { l := l, activeConnsGauge := 0, totalConnectionsCounter := 0,
    totalDisconnectionsCounter := [], closedConns := 0 }

/-- What the three calls of one `ping` return (nil: success). -/
structure PingCalls where
  setDeadline : GoError
  write : GoError
  read : GoError
  deriving DecidableEq, Repr

/-- The method `ping`: the error it returns. -/
def ping (p : PingCalls) : GoError :=
  if !p.setDeadline.isNil then errorsWrap p.setDeadline "set deadline"
  else if !p.write.isNil then p.write
  else if !p.read.isNil then p.read
  else .nil

/-- The method `processConnQuote`: the error returned, and whether `observeConn` was
started for the accepted connection. -/
def processConnQuote (acceptErr : GoError) : GoError × Bool :=
  if !acceptErr.isNil then (errorsWrap acceptErr "accept tcp", false)
  else (.nil, true)

/-- The body of `case <-l.connQuotes:` in `Run`, after the token was received:
the new state and whether a supervisor was started; `none` when
`generateConnQuotes` blocks. -/
def runCase (acceptErr : GoError) (w : World) : Option (World × Bool) :=
  let (err, started) := processConnQuote acceptErr
  let afterIf : Option World :=
    if !err.isNil then
      match w.l.generateConnQuotes 1 with
      | none => none
      | some l => some { w with l := l }
    else some w
  match afterIf with
  | none => none
  | some w1 =>
    some ({ w1 with totalConnectionsCounter := w1.totalConnectionsCounter + 1,
                    activeConnsGauge := w1.activeConnsGauge + 1 }, started)

/-- The select cases of `observeConn`. -/
inductive ObserveEvent where
  /-- The case `<-ticker.C`, with what the calls of `ping` return. -/
  | tick (p : PingCalls) : ObserveEvent
  /-- The case `<-ctx.Done()`. -/
  | ctxDone : ObserveEvent
  deriving DecidableEq, Repr

/-- Where a supervisor is after an event: still in its loop, returned, or stuck
in the send of `generateConnQuotes`. -/
inductive Flow where
  | looping (w : World) : Flow
  | returned (w : World) : Flow
  | stuck (w : World) : Flow
  deriving DecidableEq, Repr

/-- The label the failure branch of `observeConn` increments
`total_disconnections` on, for the ping error `err`. -/
def disconnectLabel (err : GoError) : String :=
  if err = GoError.eof then "success" else classifyNetError err

/-- One iteration of the `for`/`select` of `observeConn`. -/
def observeConnCase (ev : ObserveEvent) (w : World) : Flow :=
  match ev with
  | .tick p =>
    let err := ping p
    if !err.isNil then
      let w1 : World :=
        if err = GoError.eof then
          { w with totalDisconnectionsCounter := w.totalDisconnectionsCounter ++ ["success"] }
        else
          { w with totalDisconnectionsCounter :=
              w.totalDisconnectionsCounter ++ [classifyNetError err] }
      let w2 : World := { w1 with closedConns := w1.closedConns + 1 }
      let w3 : World := { w2 with activeConnsGauge := w2.activeConnsGauge - 1 }
      match w3.l.generateConnQuotes 1 with
      | none => .stuck w3
      | some l => .returned { w3 with l := l }
    else .looping w
  | .ctxDone => .returned { w with closedConns := w.closedConns + 1 }

/-- The event is a tick whose ping returns nil. -/
def ObserveEvent.pingSucceeds : ObserveEvent → Bool
  | .tick p => (ping p).isNil
  | .ctxDone => false

/-- The method `observeConn` run against the select cases it takes, in order. -/
def observeConn : List ObserveEvent → World → Flow
  | [], w => .looping w
  | ev :: rest, w =>
    match observeConnCase ev w with
    | .looping w1 => observeConn rest w1
    | .returned w1 => .returned w1
    | .stuck w1 => .stuck w1

/-! ### The listener's goroutines interleaved -/

/-- Where the goroutine of `Run` is. -/
inductive RunPc where
  /-- Waiting in the `select`. -/
  | selecting : RunPc
  /-- A token was received; inside `processConnQuote`, waiting for `AcceptTCP`. -/
  | accepting : RunPc
  /-- Returned through `case <-ctx.Done()`. -/
  | exited : RunPc
  deriving DecidableEq, Repr

/-- The listener and its goroutines. -/
structure System where
  w : World
  /-- Whether `ctx` is cancelled. -/
  ctxDone : Bool
  run : RunPc
  /-- Live `observeConn` goroutines. -/
  observing : Nat
  /-- Supervisors (`observeConn` goroutines) that returned through `case <-ctx.Done()`. -/
  cancelled : Nat
  /-- Successful `AcceptTCP` calls. -/
  accepted : Nat
  deriving DecidableEq, Repr

/-- The system right after `NewListener` returned `l` and `go l.Run(ctx)`. -/
def System.init (l : Listener) : System :=
  { w := World.init l, ctxDone := false, run := .selecting, observing := 0,
    cancelled := 0, accepted := 0 }

/-- The atomic steps of the listener's goroutines. -/
inductive Action where
  /-- The select of `Run` takes `case <-l.connQuotes`. -/
  | runRecv : Action
  /-- The call `AcceptTCP` returns `acceptErr` and `Run` finishes the case body. -/
  | runAccept (acceptErr : GoError) : Action
  /-- The select of `Run` takes `case <-ctx.Done()`. -/
  | runCtxDone : Action
  /-- The context is cancelled. -/
  | cancel : Action
  /-- One live supervisor takes a select case. -/
  | observe (ev : ObserveEvent) : Action
  deriving DecidableEq, Repr

/-- One step; `none` when the action cannot happen in this state: the
goroutine is elsewhere, its channel operation blocks, or no supervisor is
alive. -/
def step (a : Action) (s : System) : Option System :=
  match a with
  | .runRecv =>
    if s.run = .selecting then
      match s.w.l.connQuotes.recv with
      | none => none
      | some c => some { s with w := { s.w with l := { s.w.l with connQuotes := c } },
                                run := .accepting }
    else none
  | .runAccept acceptErr =>
    if s.run = .accepting then
      match runCase acceptErr s.w with
      | none => none
      | some (w1, started) =>
        some { s with w := w1, run := .selecting,
                      observing := if started then s.observing + 1 else s.observing,
                      accepted := if started then s.accepted + 1 else s.accepted }
    else none
  | .runCtxDone =>
    if s.run = .selecting ∧ s.ctxDone = true then some { s with run := .exited } else none
  | .cancel => some { s with ctxDone := true }
  | .observe ev =>
    if 0 < s.observing ∧ (ev = .ctxDone → s.ctxDone = true) then
      match observeConnCase ev s.w with
      | .looping w1 => some { s with w := w1 }
      | .returned w1 =>
        some { s with w := w1, observing := s.observing - 1,
                      cancelled := if ev = .ctxDone then s.cancelled + 1 else s.cancelled }
      | .stuck _ => none
    else none

/-- A schedule run from `s`; `none` when one of its actions cannot happen. -/
def exec : List Action → System → Option System
  | [], s => some s
  | a :: rest, s =>
    match step a s with
    | none => none
    | some s1 => exec rest s1

/-- Tokens withdrawn and not yet returned: the one `Run` holds while it
accepts, one per live supervisor, and one per supervisor that left on
cancellation. -/
def System.inFlight (s : System) : Nat :=
  (if s.run = .accepting then 1 else 0) + s.observing + s.cancelled

/-- Tokens in the pool. -/
def System.pool (s : System) : Nat := s.w.l.connQuotes.len

/-- The token accounting of the listener with `n` tokens: the channel has
capacity `n`; pool and tokens in flight add up to `n`; and the receives on the
channel exceed the sends made after the initial `n` by the tokens in flight. -/
def TokenInv (n : Nat) (s : System) : Prop :=
  s.w.l.connQuotes.cap = n ∧
  s.pool + s.inFlight = n ∧
  s.w.l.connQuotes.received + n = s.w.l.connQuotes.sent + s.inFlight

/-! ### Concrete inputs -/

/-- A ping whose three calls succeed. -/
def pingOk : PingCalls := { setDeadline := .nil, write := .nil, read := .nil }

/-- A ping whose read meets the end of the stream. -/
def pingEOF : PingCalls := { setDeadline := .nil, write := .nil, read := .eof }

/-- A ping whose read runs into the deadline: a `*net.OpError` around the
deadline error, both reporting a timeout. -/
def pingTimeout : PingCalls :=
  { setDeadline := .nil, write := .nil,
    read := .wrap "read tcp" (some true) (.leaf "i/o timeout" (some true)) }

/-- An `AcceptTCP` failure. -/
def acceptFailure : GoError :=
  .wrap "accept tcp" (some false) (.leaf "too many open files" none)

/-- A listener of capacity 1 whose only token is held by a supervised
connection, as after one successful accept. -/
def heldWorld : World :=
  { l := { connQuotes := { cap := 1, len := 0, sent := 1, received := 1 }, maxConns := 0 },
    activeConnsGauge := 1, totalConnectionsCounter := 1,
    totalDisconnectionsCounter := [], closedConns := 0 }

/-- A listener of capacity 5 with all tokens in the pool, `Run` in its select. -/
def idleSystem : System :=
  System.init { connQuotes := { cap := 5, len := 5, sent := 5, received := 0 }, maxConns := 0 }

/-! ## Theorems: the error classifier -/

theorem unwrapLoop_asUnwrap (e : GoError) : (unwrapLoop e).asUnwrap = none := by
  induction e with
  | nil => rfl
  | eof => rfl
  | leaf m ne => rfl
  | wrap m ne inner ih => simpa [unwrapLoop] using ih

theorem unwrapLoop_reaches (e : GoError) : Relation.ReflTransGen UnwrapsTo e (unwrapLoop e) := by
  induction e with
  | nil => exact Relation.ReflTransGen.refl
  | eof => exact Relation.ReflTransGen.refl
  | leaf m ne => exact Relation.ReflTransGen.refl
  | wrap m ne inner ih =>
    have h : UnwrapsTo (GoError.wrap m ne inner) inner := rfl
    simpa [unwrapLoop] using Relation.ReflTransGen.head h ih

theorem unwrapLoop_of_unwrapsTo {e c : GoError} (h : UnwrapsTo e c) :
    unwrapLoop e = unwrapLoop c := by
  cases e with
  | nil => simp [UnwrapsTo, GoError.asUnwrap] at h
  | eof => simp [UnwrapsTo, GoError.asUnwrap] at h
  | leaf m ne => simp [UnwrapsTo, GoError.asUnwrap] at h
  | wrap m ne inner =>
    simp only [UnwrapsTo, GoError.asUnwrap, Option.some.injEq] at h
    subst h
    simp [unwrapLoop]

theorem unwrapLoop_of_no_unwrap {r : GoError} (h : r.asUnwrap = none) : unwrapLoop r = r := by
  cases r with
  | nil => rfl
  | eof => rfl
  | leaf m ne => rfl
  | wrap m ne inner => simp [GoError.asUnwrap] at h

theorem isRootCause_iff (e r : GoError) : IsRootCause e r ↔ r = unwrapLoop e := by
  constructor
  · rintro ⟨hreach, hroot⟩
    induction hreach using Relation.ReflTransGen.head_induction_on with
    | refl => exact (unwrapLoop_of_no_unwrap hroot).symm
    | head h _ ih => rw [unwrapLoop_of_unwrapsTo h]; exact ih
  · rintro rfl
    exact ⟨unwrapLoop_reaches e, unwrapLoop_asUnwrap e⟩

theorem classifyNetError_cases (err : GoError) :
    ((unwrapLoop err).asNetError = some true ∧ classifyNetError err = "timeout") ∨
    ((unwrapLoop err).asNetError ≠ some true ∧ classifyNetError err = "unknown_error") := by
  unfold classifyNetError
  rcases h : (unwrapLoop err).asNetError with _ | b
  · right; simp [h]
  · cases b
    · right; simp [h]
    · left; simp [h, timeoutStr]

theorem isNil_nil : GoError.nil.isNil = true := rfl

theorem errorsWrap_unwrapLoop (e : GoError) (m : String) :
    unwrapLoop (errorsWrap e m) = unwrapLoop e := by
  cases e <;> simp [errorsWrap, unwrapLoop]

theorem errorsWrap_classify (e : GoError) (m : String) :
    classifyNetError (errorsWrap e m) = classifyNetError e := by
  simp [classifyNetError, errorsWrap_unwrapLoop]

theorem errorsWrap_isNil (e : GoError) (m : String) :
    (errorsWrap e m).isNil = e.isNil := by
  cases e <;> simp [errorsWrap, GoError.isNil]

theorem errorsWrap_ne_eof (e : GoError) (m : String) : errorsWrap e m ≠ GoError.eof := by
  cases e <;> simp [errorsWrap]

/-- C6: for every error value, nil and chains whose `Unwrap` yields nil
included, the error has exactly one root cause (reached by unwrapping until no
further unwrap is offered); `classifyNetError` returns "timeout" exactly when
that root implements `net.Error` and its `Timeout()` is true, and returns
"unknown_error" in every other case. -/
theorem classifyNetError_spec (err : GoError) :
    (∃! r, IsRootCause err r) ∧
    (classifyNetError err = "timeout" ↔
      ∃ r, IsRootCause err r ∧ r.asNetError = some true) ∧
    (classifyNetError err = "unknown_error" ↔
      ¬ ∃ r, IsRootCause err r ∧ r.asNetError = some true) := by
  have hex : (∃ r, IsRootCause err r ∧ r.asNetError = some true) ↔
      (unwrapLoop err).asNetError = some true := by
    constructor
    · rintro ⟨r, hr, ht⟩
      rw [(isRootCause_iff err r).1 hr] at ht
      exact ht
    · intro h
      exact ⟨unwrapLoop err, (isRootCause_iff err _).2 rfl, h⟩
  refine ⟨⟨unwrapLoop err, (isRootCause_iff err _).2 rfl, ?_⟩, ?_, ?_⟩
  · intro r hr
    exact (isRootCause_iff err r).1 hr
  · rw [hex]
    rcases classifyNetError_cases err with ⟨h1, h2⟩ | ⟨h1, h2⟩
    · simp [h1, h2]
    · simp [h1, h2]
  · rw [hex]
    rcases classifyNetError_cases err with ⟨h1, h2⟩ | ⟨h1, h2⟩
    · simp [h1, h2]
    · simp [h1, h2]

/-- C7: wrapping an error in any number of `errors.Wrap` layers (for every
message, "set deadline" included) does not change its classification, and a
timeout-reporting root wrapped three times with "set deadline" classifies as
"timeout". -/
theorem classifyNetError_wrapTimes (message : String) (n : Nat) (e : GoError) (msg : String) :
    classifyNetError (wrapTimes message n e) = classifyNetError e ∧
    classifyNetError (wrapTimes "set deadline" 3 (GoError.leaf msg (some true))) = "timeout" := by
  have key : ∀ (m : String) (k : Nat) (x : GoError),
      classifyNetError (wrapTimes m k x) = classifyNetError x := by
    intro m k x
    induction k with
    | zero => rfl
    | succ k ih => rw [wrapTimes, errorsWrap_classify, ih]
  refine ⟨key message n e, ?_⟩
  rw [key]
  simp [classifyNetError, unwrapLoop, GoError.asNetError, timeoutStr]

/-! ## Theorems: the random dialer -/

theorem wrapInt_of_range {x : Int} (hlo : -(2 ^ 63) ≤ x) (hhi : x < 2 ^ 63) : wrapInt x = x := by
  unfold wrapInt
  omega

theorem handleConnLoop_nonnil_aux (n : Nat) :
    ∀ (script : List GoError), script.length ≤ n →
    ∀ (ops : List ConnOp) (e : GoError) (log : List ConnOp),
      handleConnLoop script ops = (.returned e, log) → e.isNil = false := by
  induction n with
  | zero =>
    intro script hlen ops e log h
    have : script = [] := List.length_eq_zero.mp (Nat.le_zero.mp hlen)
    subst this
    simp [handleConnLoop] at h
  | succ n ih =>
    intro script hlen ops e log h
    match script with
    | [] => simp [handleConnLoop] at h
    | [rd] =>
      by_cases hrd : rd.isNil = true
      · simp [handleConnLoop, hrd] at h
      · simp only [Bool.not_eq_true] at hrd
        simp [handleConnLoop, hrd] at h
        rw [← h.1]; exact hrd
    | rd :: wr :: rest =>
      by_cases hrd : rd.isNil = true
      · by_cases hwr : wr.isNil = true
        · simp only [handleConnLoop, hrd, hwr, Bool.not_true] at h
          refine ih rest ?_ _ e log (by simpa using h)
          simp only [List.length_cons] at hlen
          omega
        · simp only [Bool.not_eq_true] at hwr
          simp [handleConnLoop, hrd, hwr] at h
          rw [← h.1]; exact hwr
      · simp only [Bool.not_eq_true] at hrd
        simp [handleConnLoop, hrd] at h
        rw [← h.1]; exact hrd

theorem handleConnLoop_nonnil (script : List GoError) (ops : List ConnOp) (e : GoError)
    (log : List ConnOp) (h : handleConnLoop script ops = (.returned e, log)) :
    e.isNil = false :=
  handleConnLoop_nonnil_aux script.length script (Nat.le_refl _) ops e log h

theorem handleConn_nonnil (d : RandomDialer) (draw : Nat) (script : List GoError) (e : GoError)
    (log : List ConnOp) (h : d.handleConn draw script = (.returned e, log)) :
    e.isNil = false := by
  unfold RandomDialer.handleConn at h
  cases hc : d.calculateTTL draw with
  | none => simp [hc] at h
  | some ttl =>
    simp only [hc] at h
    match script with
    | [] => simp at h
    | sd :: rest =>
      by_cases hsd : sd.isNil = true
      · simp only [hsd, Bool.not_true] at h
        exact handleConnLoop_nonnil rest _ e log (by simpa using h)
      · simp only [Bool.not_eq_true] at hsd
        simp [hsd] at h
        rw [← h.1, errorsWrap_isNil]; exact hsd

theorem handleConnLoop_returns_aux (n : Nat) :
    ∀ (script : List GoError), script.length ≤ n →
    (∃ x, x ∈ script ∧ x.isNil = false) →
    ∀ (ops : List ConnOp), ∃ e log, handleConnLoop script ops = (.returned e, log) := by
  induction n with
  | zero =>
    intro script hlen hx
    have : script = [] := List.length_eq_zero.mp (Nat.le_zero.mp hlen)
    subst this
    simp at hx
  | succ n ih =>
    intro script hlen hx ops
    match script with
    | [] => simp at hx
    | [rd] =>
      obtain ⟨x, hmem, hnil⟩ := hx
      simp only [List.mem_singleton] at hmem
      subst hmem
      exact ⟨x, ops ++ [.read], by simp [handleConnLoop, hnil]⟩
    | rd :: wr :: rest =>
      by_cases hrd : rd.isNil = true
      · by_cases hwr : wr.isNil = true
        · have hrest : ∃ x, x ∈ rest ∧ x.isNil = false := by
            obtain ⟨x, hmem, hnil⟩ := hx
            simp only [List.mem_cons] at hmem
            rcases hmem with rfl | rfl | hmem
            · simp [hrd] at hnil
            · simp [hwr] at hnil
            · exact ⟨x, hmem, hnil⟩
          have hl : rest.length ≤ n := by
            simp only [List.length_cons] at hlen
            omega
          obtain ⟨e, log, h⟩ := ih rest hl hrest (ops ++ [.read, .write])
          exact ⟨e, log, by simp [handleConnLoop, hrd, hwr, h]⟩
        · simp only [Bool.not_eq_true] at hwr
          exact ⟨wr, ops ++ [.read, .write], by simp [handleConnLoop, hrd, hwr]⟩
      · simp only [Bool.not_eq_true] at hrd
        exact ⟨rd, ops ++ [.read], by simp [handleConnLoop, hrd]⟩

/-- Termination of `handleConn`: once some call on the connection fails and
`rand.Intn` does not panic, `handleConn` returns. -/
theorem handleConn_returns (d : RandomDialer) (draw : Nat) (script : List GoError)
    (httl : d.calculateTTL draw ≠ none) (hx : ∃ x, x ∈ script ∧ x.isNil = false) :
    ∃ e log, d.handleConn draw script = (.returned e, log) := by
  unfold RandomDialer.handleConn
  cases hc : d.calculateTTL draw with
  | none => exact absurd hc httl
  | some ttl =>
    match script with
    | [] => simp at hx
    | sd :: rest =>
      by_cases hsd : sd.isNil = true
      · have hrest : ∃ x, x ∈ rest ∧ x.isNil = false := by
          obtain ⟨x, hmem, hnil⟩ := hx
          simp only [List.mem_cons] at hmem
          rcases hmem with rfl | hmem
          · simp [hsd] at hnil
          · exact ⟨x, hmem, hnil⟩
        obtain ⟨e, log, h⟩ :=
          handleConnLoop_returns_aux rest.length rest (Nat.le_refl _) hrest [.setDeadline]
        exact ⟨e, log, by simp [hsd, h]⟩
      · simp only [Bool.not_eq_true] at hsd
        exact ⟨errorsWrap sd "set deadline", [.setDeadline], by simp [hsd]⟩

/-- C8: for `0 <= minTTL <= maxTTL` with `maxTTL - minTTL + 1` representable,
`calculateTTL` returns `r + minTTL` for the value `r` of
`rand.Intn(maxTTL - minTTL + 1)`, which lies in `[minTTL, maxTTL]`; every `r` of
`[0, maxTTL - minTTL + 1)` and every value of `[minTTL, maxTTL]` occurs for some
draw; and for `minTTL = maxTTL` the result is that value. -/
theorem calculateTTL_range (minTTL maxTTL : Int) (chance : ℚ)
    (h0 : 0 ≤ minTTL) (hle : minTTL ≤ maxTTL) (hmax : maxTTL < 2 ^ 63)
    (hrep : maxTTL - minTTL + 1 < 2 ^ 63) :
    (∀ draw : Nat, ∃ r : Int, randIntn draw (maxTTL - minTTL + 1) = some r ∧
        0 ≤ r ∧ r < maxTTL - minTTL + 1 ∧
        (NewRandomDialer minTTL maxTTL chance).calculateTTL draw = some (r + minTTL) ∧
        minTTL ≤ r + minTTL ∧ r + minTTL ≤ maxTTL) ∧
    (∀ r : Int, 0 ≤ r → r < maxTTL - minTTL + 1 →
        ∃ draw : Nat, randIntn draw (maxTTL - minTTL + 1) = some r ∧
          (NewRandomDialer minTTL maxTTL chance).calculateTTL draw = some (r + minTTL)) ∧
    (∀ t : Int, minTTL ≤ t → t ≤ maxTTL →
        ∃ draw : Nat, (NewRandomDialer minTTL maxTTL chance).calculateTTL draw = some t) ∧
    (minTTL = maxTTL →
        ∀ draw : Nat, (NewRandomDialer minTTL maxTTL chance).calculateTTL draw = some minTTL) := by
  have hmin : wrapInt minTTL = minTTL := wrapInt_of_range (by omega) (by omega)
  have hmx : wrapInt maxTTL = maxTTL := wrapInt_of_range (by omega) (by omega)
  have hsub : wrapInt (maxTTL - minTTL) = maxTTL - minTTL :=
    wrapInt_of_range (by omega) (by omega)
  have hn : wrapInt (maxTTL - minTTL + 1) = maxTTL - minTTL + 1 :=
    wrapInt_of_range (by omega) (by omega)
  have hpos : ¬ (maxTTL - minTTL + 1 ≤ 0) := by omega
  have hcalc : ∀ draw : Nat,
      (NewRandomDialer minTTL maxTTL chance).calculateTTL draw
        = some ((draw : Int) % (maxTTL - minTTL + 1) + minTTL) := by
    intro draw
    have hr0 : 0 ≤ (draw : Int) % (maxTTL - minTTL + 1) := Int.emod_nonneg _ (by omega)
    have hr1 : (draw : Int) % (maxTTL - minTTL + 1) < maxTTL - minTTL + 1 :=
      Int.emod_lt_of_pos _ (by omega)
    simp only [RandomDialer.calculateTTL, NewRandomDialer, hmin, hmx, hsub, hn, randIntn,
      if_neg hpos]
    rw [wrapInt_of_range (by omega) (by omega)]
  have hdraw : ∀ r : Int, 0 ≤ r → r < maxTTL - minTTL + 1 →
      ((r.toNat : Nat) : Int) % (maxTTL - minTTL + 1) = r := by
    intro r hr0 hr1
    rw [Int.toNat_of_nonneg hr0]
    exact Int.emod_eq_of_lt hr0 hr1
  refine ⟨?_, ?_, ?_, ?_⟩
  · intro draw
    have hr0 : 0 ≤ (draw : Int) % (maxTTL - minTTL + 1) := Int.emod_nonneg _ (by omega)
    have hr1 : (draw : Int) % (maxTTL - minTTL + 1) < maxTTL - minTTL + 1 :=
      Int.emod_lt_of_pos _ (by omega)
    refine ⟨(draw : Int) % (maxTTL - minTTL + 1), ?_, hr0, hr1, hcalc draw, ?_, ?_⟩
    · simp [randIntn, if_neg hpos]
    · omega
    · omega
  · intro r hr0 hr1
    refine ⟨r.toNat, ?_, ?_⟩
    · simp only [randIntn, if_neg hpos, hdraw r hr0 hr1]
    · rw [hcalc, hdraw r hr0 hr1]
  · intro t ht0 ht1
    refine ⟨(t - minTTL).toNat, ?_⟩
    rw [hcalc, hdraw (t - minTTL) (by omega) (by omega)]
    simp
  · intro heq draw
    rw [hcalc]
    have : maxTTL - minTTL + 1 = 1 := by omega
    rw [this]
    simp

theorem calculateTTL_range_witness :
    ((0 : Int) ≤ 1000 ∧ (1000 : Int) ≤ 3000) ∧
    (∃ draw : Nat, (NewRandomDialer 1000 3000 (1 / 2)).calculateTTL draw = some 2500) ∧
    (NewRandomDialer 7 7 0).calculateTTL 12345 = some 7 :=
  ⟨⟨by decide, by decide⟩,
   (calculateTTL_range 1000 3000 (1 / 2) (by decide) (by decide) (by decide) (by decide)).2.2.1
      2500 (by decide) (by decide),
   (calculateTTL_range 7 7 0 (by decide) (by decide) (by decide) (by decide)).2.2.2 rfl 12345⟩

/-- C9: for a trial whose request/response loop, when it is run (the open
succeeded and the trial is not bad), ended with the error `e`:
`dial` returns, and the error it returns is non-nil exactly when opening the
connection failed, or the trial is not bad and `e` does not classify as
"timeout".  A failed open is returned wrapped with "dial"; for a good trial on
an open connection a timeout-classified `e` gives nil and any other `e` is
returned wrapped with "handle conn"; `Run` logs exactly the non-nil results. -/
theorem dial_error_iff (d : RandomDialer) (isBad : Bool) (dialErr : GoError) (draw : Nat)
    (script : List GoError) (e : GoError) (ops : List ConnOp)
    (hterm : dialErr.isNil = true → isBad = false →
      d.handleConn draw script = (.returned e, ops)) :
    ∃ r log, d.dial isBad dialErr draw script = (.returned r, log) ∧
      (r.isNil = false ↔
        dialErr.isNil = false ∨ (isBad = false ∧ classifyNetError e ≠ "timeout")) ∧
      (dialErr.isNil = false → r = errorsWrap dialErr "dial") ∧
      (dialErr.isNil = true → isBad = false → classifyNetError e = "timeout" →
        r = GoError.nil) ∧
      (dialErr.isNil = true → isBad = false → classifyNetError e ≠ "timeout" →
        r = errorsWrap e "handle conn") ∧
      (∀ f : ℚ, d.isBadDial f = isBad →
        d.runTrial f dialErr draw script = .returned (!r.isNil)) := by
  have hrun : ∀ (r : GoError) (log : List ConnOp),
      d.dial isBad dialErr draw script = (.returned r, log) →
      ∀ f : ℚ, d.isBadDial f = isBad →
        d.runTrial f dialErr draw script = .returned (!r.isNil) := by
    intro r log h f hf
    simp [RandomDialer.runTrial, hf, h]
  by_cases hd : dialErr.isNil = true
  · cases isBad with
    | true =>
      have h : d.dial true dialErr draw script = (.returned GoError.nil, []) := by
        simp [RandomDialer.dial, hd]
      refine ⟨GoError.nil, [], h, ?_, ?_, ?_, ?_, hrun _ _ h⟩
      · simp [isNil_nil, hd]
      · simp [hd]
      · simp
      · simp
    | false =>
      have hterm := hterm hd rfl
      have he : e.isNil = false := handleConn_nonnil d draw script e ops hterm
      by_cases hc : classifyNetError e = "timeout"
      · have h : d.dial false dialErr draw script = (.returned GoError.nil, ops ++ [.close]) := by
          simp [RandomDialer.dial, hd, hterm, he, hc, timeoutStr]
        refine ⟨GoError.nil, _, h, ?_, ?_, ?_, ?_, hrun _ _ h⟩
        · simp [isNil_nil, hd, hc]
        · simp [hd]
        · simp
        · simp [hc]
      · have h : d.dial false dialErr draw script =
            (.returned (errorsWrap e "handle conn"), ops ++ [.close]) := by
          simp [RandomDialer.dial, hd, hterm, he, hc, timeoutStr]
        refine ⟨errorsWrap e "handle conn", _, h, ?_, ?_, ?_, ?_, hrun _ _ h⟩
        · simp [errorsWrap_isNil, he, hc]
        · simp [hd]
        · simp [hc]
        · simp
  · simp only [Bool.not_eq_true] at hd
    have h : d.dial isBad dialErr draw script = (.returned (errorsWrap dialErr "dial"), []) := by
      simp [RandomDialer.dial, hd]
    refine ⟨errorsWrap dialErr "dial", [], h, ?_, ?_, ?_, ?_, hrun _ _ h⟩
    · simp [errorsWrap_isNil, hd]
    · simp
    · simp [hd]
    · simp [hd]

theorem dial_error_iff_witness :
    ∃ r log, (NewRandomDialer 1 3 (1 / 2)).dial false GoError.nil 0
        [GoError.nil, GoError.nil, GoError.nil,
          GoError.wrap "read" (some true) (GoError.leaf "i/o timeout" (some true))]
        = (.returned r, log) ∧
      (r.isNil = false ↔
        GoError.nil.isNil = false ∨
          (false = false ∧
            classifyNetError
              (GoError.wrap "read" (some true) (GoError.leaf "i/o timeout" (some true)))
              ≠ "timeout")) ∧
      (GoError.nil.isNil = false → r = errorsWrap GoError.nil "dial") ∧
      (GoError.nil.isNil = true → false = false →
        classifyNetError
          (GoError.wrap "read" (some true) (GoError.leaf "i/o timeout" (some true)))
          = "timeout" → r = GoError.nil) ∧
      (GoError.nil.isNil = true → false = false →
        classifyNetError
          (GoError.wrap "read" (some true) (GoError.leaf "i/o timeout" (some true)))
          ≠ "timeout" →
        r = errorsWrap
          (GoError.wrap "read" (some true) (GoError.leaf "i/o timeout" (some true)))
          "handle conn") ∧
      (∀ f : ℚ, (NewRandomDialer 1 3 (1 / 2)).isBadDial f = false →
        (NewRandomDialer 1 3 (1 / 2)).runTrial f GoError.nil 0
          [GoError.nil, GoError.nil, GoError.nil,
            GoError.wrap "read" (some true) (GoError.leaf "i/o timeout" (some true))]
          = .returned (!r.isNil)) :=
  dial_error_iff (NewRandomDialer 1 3 (1 / 2)) false GoError.nil 0
    [GoError.nil, GoError.nil, GoError.nil,
      GoError.wrap "read" (some true) (GoError.leaf "i/o timeout" (some true))]
    (GoError.wrap "read" (some true) (GoError.leaf "i/o timeout" (some true)))
    [.setDeadline, .read, .write, .read]
    (fun _ _ => by decide)

/-- C10: with `badDialChance = 1.0` every value `rand.Float32` can return
(`0 <= f < 1`) makes `isBadDial` true, and a bad dial on a connection that
opened returns nil with no call made on the connection: no deadline, read,
write or close. -/
theorem isBadDial_chance_one (d : RandomDialer) (hd : d.badDialChance = 1) (f : ℚ)
    (_h0 : 0 ≤ f) (h1 : f < 1) (draw : Nat) (script : List GoError) :
    d.isBadDial f = true ∧
    d.dial (d.isBadDial f) GoError.nil draw script = (.returned GoError.nil, []) ∧
    (∀ d2 : RandomDialer, d2.dial true GoError.nil draw script = (.returned GoError.nil, [])) := by
  have hb : d.isBadDial f = true := by simp [RandomDialer.isBadDial, hd, h1]
  refine ⟨hb, ?_, ?_⟩
  · simp [hb, RandomDialer.dial, GoError.isNil]
  · intro d2
    simp [RandomDialer.dial, GoError.isNil]

theorem isBadDial_chance_one_witness :
    (NewRandomDialer 1 3 1).isBadDial (3 / 4) = true ∧
    (NewRandomDialer 1 3 1).dial ((NewRandomDialer 1 3 1).isBadDial (3 / 4)) GoError.nil 5
      [GoError.nil, GoError.eof] = (.returned GoError.nil, []) ∧
    (∀ d2 : RandomDialer,
      d2.dial true GoError.nil 5 [GoError.nil, GoError.eof] = (.returned GoError.nil, [])) :=
  isBadDial_chance_one (NewRandomDialer 1 3 1) rfl (3 / 4) (by norm_num) (by norm_num) 5
    [GoError.nil, GoError.eof]

/-! ## Theorems: the listener -/

theorem generateConnQuotes_one (l : Listener) (h : l.connQuotes.len < l.connQuotes.cap) :
    l.generateConnQuotes 1 =
      some { l with connQuotes :=
        { l.connQuotes with len := l.connQuotes.len + 1, sent := l.connQuotes.sent + 1 } } := by
  simp [Listener.generateConnQuotes, Listener.sendQuotes, Chan.send, h]

theorem disconnectLabel_mem (err : GoError) :
    disconnectLabel err = "success" ∨ disconnectLabel err = "timeout" ∨
      disconnectLabel err = "unknown_error" := by
  unfold disconnectLabel
  by_cases h : err = GoError.eof
  · left; simp [h]
  · right
    simp only [if_neg h]
    rcases classifyNetError_cases err with ⟨_, h2⟩ | ⟨_, h2⟩
    · left; exact h2
    · right; exact h2

theorem observeConnCase_ok (p : PingCalls) (w : World) (hp : (ping p).isNil = true) :
    observeConnCase (.tick p) w = .looping w := by
  simp [observeConnCase, hp]

theorem observeConnCase_fail (p : PingCalls) (w : World) (hp : (ping p).isNil = false)
    (hroom : w.l.connQuotes.len < w.l.connQuotes.cap) :
    observeConnCase (.tick p) w = .returned
      { l := { w.l with connQuotes :=
                { w.l.connQuotes with len := w.l.connQuotes.len + 1,
                                      sent := w.l.connQuotes.sent + 1 } },
        activeConnsGauge := w.activeConnsGauge - 1,
        totalConnectionsCounter := w.totalConnectionsCounter,
        totalDisconnectionsCounter := w.totalDisconnectionsCounter ++ [disconnectLabel (ping p)],
        closedConns := w.closedConns + 1 } := by
  by_cases he : ping p = GoError.eof
  · simp [observeConnCase, hp, he, disconnectLabel, generateConnQuotes_one, hroom, GoError.isNil]
  · simp [observeConnCase, hp, he, disconnectLabel, generateConnQuotes_one, hroom]

theorem observeConn_pings_ok (pre : List ObserveEvent) (evs : List ObserveEvent) (w : World)
    (hpre : ∀ ev ∈ pre, ev.pingSucceeds = true) :
    observeConn (pre ++ evs) w = observeConn evs w := by
  induction pre with
  | nil => rfl
  | cons ev pre ih =>
    have hev := hpre ev (List.mem_cons_self _ _)
    cases ev with
    | ctxDone => simp [ObserveEvent.pingSucceeds] at hev
    | tick p =>
    have hp : (ping p).isNil = true := hev
    have ih2 := ih (fun ev hev => hpre ev (List.mem_cons_of_mem _ hev))
    simp [observeConn, observeConnCase_ok p w hp, ih2]

/-- C5: a supervisor whose pings succeed and then one fails with error `e`
(the quota channel having room, as it has whenever a connection is supervised)
returns at that ping; it has incremented `total_disconnections` once, on
"success" when `e` is `io.EOF` and on `classifyNetError e` otherwise, a label
of "success", "timeout", "unknown_error"; it has decremented the
active-connections gauge by one; and nothing that follows changes that.  After
the successful pings alone it is still supervising with every metric unchanged. -/
theorem observeConn_outcome (pre rest : List ObserveEvent) (w : World) (p : PingCalls)
    (hpre : ∀ ev ∈ pre, ev.pingSucceeds = true)
    (hp : (ping p).isNil = false)
    (hroom : w.l.connQuotes.len < w.l.connQuotes.cap) :
    observeConn pre w = .looping w ∧
    ∃ w1, observeConn (pre ++ .tick p :: rest) w = .returned w1 ∧
      observeConn (pre ++ [.tick p]) w = .returned w1 ∧
      w1.totalDisconnectionsCounter = w.totalDisconnectionsCounter ++
        [if ping p = GoError.eof then "success" else classifyNetError (ping p)] ∧
      (w1.totalDisconnectionsCounter = w.totalDisconnectionsCounter ++ ["success"] ∨
        w1.totalDisconnectionsCounter = w.totalDisconnectionsCounter ++ ["timeout"] ∨
        w1.totalDisconnectionsCounter = w.totalDisconnectionsCounter ++ ["unknown_error"]) ∧
      w1.activeConnsGauge = w.activeConnsGauge - 1 ∧
      w1.totalConnectionsCounter = w.totalConnectionsCounter := by
  refine ⟨?_, ?_⟩
  · have h := observeConn_pings_ok pre [] w hpre
    simpa [observeConn] using h
  · refine ⟨{ l := { w.l with connQuotes :=
                      { w.l.connQuotes with len := w.l.connQuotes.len + 1,
                                            sent := w.l.connQuotes.sent + 1 } },
              activeConnsGauge := w.activeConnsGauge - 1,
              totalConnectionsCounter := w.totalConnectionsCounter,
              totalDisconnectionsCounter :=
                w.totalDisconnectionsCounter ++ [disconnectLabel (ping p)],
              closedConns := w.closedConns + 1 }, ?_, ?_, rfl, ?_, rfl, rfl⟩
    · rw [observeConn_pings_ok pre _ w hpre]
      simp [observeConn, observeConnCase_fail p w hp hroom]
    · rw [observeConn_pings_ok pre _ w hpre]
      simp [observeConn, observeConnCase_fail p w hp hroom]
    · rcases disconnectLabel_mem (ping p) with h | h | h
      · left; simp [h]
      · right; left; simp [h]
      · right; right; simp [h]

theorem observeConn_outcome_witness :
    (ping pingTimeout).isNil = false ∧
    heldWorld.l.connQuotes.len < heldWorld.l.connQuotes.cap ∧
    observeConn [.tick pingOk, .tick pingOk] heldWorld = .looping heldWorld ∧
    ∃ w1, observeConn ([.tick pingOk, .tick pingOk] ++ .tick pingTimeout :: [.tick pingEOF])
        heldWorld = .returned w1 ∧
      w1.totalDisconnectionsCounter = ["timeout"] ∧ w1.activeConnsGauge = 0 := by
  have h := observeConn_outcome [.tick pingOk, .tick pingOk] [.tick pingEOF] heldWorld
    pingTimeout (by decide) (by decide) (by decide)
  refine ⟨by decide, by decide, h.1, ?_⟩
  obtain ⟨w1, h1, _, h3, _, h5, _⟩ := h.2
  exact ⟨w1, h1, by rw [h3]; decide, by rw [h5]; decide⟩

/-- C2 (amended): a supervisor whose pings succeed until one fails, whatever
the failure (end of stream, timeout, any other error), returns having put
exactly one token back into the pool: one send, the length one higher, no
receive.  A supervisor that leaves through the cancellation case returns with
the quota channel untouched: it closes the connection and puts no token back. -/
theorem observeConn_token_return (pre rest : List ObserveEvent) (w : World)
    (hpre : ∀ ev ∈ pre, ev.pingSucceeds = true)
    (hroom : w.l.connQuotes.len < w.l.connQuotes.cap) :
    (∀ p : PingCalls, (ping p).isNil = false →
      ∃ w1, observeConn (pre ++ .tick p :: rest) w = .returned w1 ∧
        w1.l.connQuotes.sent = w.l.connQuotes.sent + 1 ∧
        w1.l.connQuotes.len = w.l.connQuotes.len + 1 ∧
        w1.l.connQuotes.received = w.l.connQuotes.received ∧
        w1.l.connQuotes.cap = w.l.connQuotes.cap ∧
        w1.closedConns = w.closedConns + 1) ∧
    (∃ w1, observeConn (pre ++ .ctxDone :: rest) w = .returned w1 ∧
        w1.l = w.l ∧ w1.closedConns = w.closedConns + 1 ∧
        w1.activeConnsGauge = w.activeConnsGauge ∧
        w1.totalDisconnectionsCounter = w.totalDisconnectionsCounter) := by
  refine ⟨?_, ?_⟩
  · intro p hp
    refine ⟨{ l := { w.l with connQuotes :=
                      { w.l.connQuotes with len := w.l.connQuotes.len + 1,
                                            sent := w.l.connQuotes.sent + 1 } },
              activeConnsGauge := w.activeConnsGauge - 1,
              totalConnectionsCounter := w.totalConnectionsCounter,
              totalDisconnectionsCounter :=
                w.totalDisconnectionsCounter ++ [disconnectLabel (ping p)],
              closedConns := w.closedConns + 1 }, ?_, rfl, rfl, rfl, rfl, rfl⟩
    rw [observeConn_pings_ok pre _ w hpre]
    simp only [observeConn, observeConnCase_fail p w hp hroom]
  · refine ⟨{ w with closedConns := w.closedConns + 1 }, ?_, rfl, rfl, rfl, rfl⟩
    rw [observeConn_pings_ok pre _ w hpre]
    simp [observeConn, observeConnCase]

theorem observeConn_token_return_witness :
    heldWorld.l.connQuotes.len < heldWorld.l.connQuotes.cap ∧
    (∃ w1, observeConn ([.tick pingOk] ++ .tick pingEOF :: []) heldWorld = .returned w1 ∧
      w1.l.connQuotes.len = 1) ∧
    (∃ w1, observeConn ([.tick pingOk] ++ .ctxDone :: []) heldWorld = .returned w1 ∧
      w1.l.connQuotes.len = 0) := by
  have h := observeConn_token_return [.tick pingOk] [] heldWorld (by decide) (by decide)
  refine ⟨by decide, ?_, ?_⟩
  · obtain ⟨w1, h1, _, h3, _⟩ := h.1 pingEOF (by decide)
    exact ⟨w1, h1, by rw [h3]; decide⟩
  · obtain ⟨w1, h1, h2, _⟩ := h.2
    exact ⟨w1, h1, by rw [h2]; decide⟩

/-- C2, as stated, fails at cancellation: the supervisor of the one connection
of a capacity-1 listener takes `case <-ctx.Done()` and returns, and the pool is
still empty: nothing was sent on the quota channel. -/
theorem observeConn_cancel_returns_no_token :
    ∃ w1, observeConn [.ctxDone] heldWorld = .returned w1 ∧
      w1.l.connQuotes.len = 0 ∧
      w1.l.connQuotes.sent = heldWorld.l.connQuotes.sent ∧
      ¬ (w1.l.connQuotes.sent = heldWorld.l.connQuotes.sent + 1) := by
  refine ⟨{ heldWorld with closedConns := 1 }, ?_, ?_, ?_, ?_⟩ <;> decide

theorem sendQuotes_room (k : Nat) :
    ∀ l : Listener, l.connQuotes.len + k ≤ l.connQuotes.cap →
      l.sendQuotes k = some { l with connQuotes :=
        { l.connQuotes with len := l.connQuotes.len + k, sent := l.connQuotes.sent + k } } := by
  induction k with
  | zero => intro l _; rfl
  | succ k ih =>
    intro l h
    have hlt : l.connQuotes.len < l.connQuotes.cap := by omega
    simp only [Listener.sendQuotes, Chan.send, if_pos hlt]
    rw [ih _ (by simp only; omega)]
    simp only [Option.some.injEq, Listener.mk.injEq, Chan.mk.injEq, and_true, true_and]
    constructor <;> omega

theorem NewListener_returns (maxConns : Int) (h : 0 ≤ maxConns) :
    NewListener maxConns = .returned
      { connQuotes := { cap := maxConns.toNat, len := maxConns.toNat, sent := maxConns.toNat,
                        received := 0 },
        maxConns := 0 } := by
  have hneg : ¬ maxConns < 0 := by omega
  simp only [NewListener, if_neg hneg, Listener.generateConnQuotes]
  rw [sendQuotes_room maxConns.toNat _ (by simp [Chan.make])]
  simp [Chan.make]

theorem tokenInv_init (n : Nat) :
    TokenInv n (System.init
      { connQuotes := { cap := n, len := n, sent := n, received := 0 }, maxConns := 0 }) := by
  simp [TokenInv, System.init, World.init, System.pool, System.inFlight]

theorem tokenInv_step (n : Nat) (a : Action) (s s1 : System) (hinv : TokenInv n s)
    (hstep : step a s = some s1) : TokenInv n s1 := by
  obtain ⟨hcap, hpool, hcount⟩ := hinv
  cases a with
  | runRecv =>
    simp only [step] at hstep
    split at hstep
    · rename_i hrun
      by_cases hlen : 0 < s.w.l.connQuotes.len
      · simp only [Chan.recv, if_pos hlen, Option.some.injEq] at hstep
        subst hstep
        simp only [TokenInv, System.pool, System.inFlight, hrun] at *
        simp at *
        refine ⟨hcap, ?_, ?_⟩ <;> omega
      · simp [Chan.recv, hlen] at hstep
    · simp at hstep
  | runAccept e =>
    simp only [step] at hstep
    split at hstep
    · rename_i hrun
      by_cases he : e.isNil = true
      · simp only [runCase, processConnQuote, he, Bool.not_true, Bool.false_eq_true, if_false,
          isNil_nil, Option.some.injEq] at hstep
        subst hstep
        simp only [TokenInv, System.pool, System.inFlight, hrun] at *
        simp at *
        refine ⟨hcap, ?_, ?_⟩ <;> omega
      · simp only [Bool.not_eq_true] at he
        have hroom : s.w.l.connQuotes.len < s.w.l.connQuotes.cap := by
          simp only [System.pool, System.inFlight, hrun] at hpool
          simp at hpool
          omega
        simp only [runCase, processConnQuote, he, Bool.not_false, if_true, errorsWrap_isNil,
          generateConnQuotes_one _ hroom, Option.some.injEq] at hstep
        subst hstep
        simp only [TokenInv, System.pool, System.inFlight, hrun] at *
        simp at *
        refine ⟨hcap, ?_, ?_⟩ <;> omega
    · simp at hstep
  | runCtxDone =>
    simp only [step] at hstep
    split at hstep
    · rename_i hrun
      simp only [Option.some.injEq] at hstep
      subst hstep
      simp only [TokenInv, System.pool, System.inFlight, hrun.1] at *
      simp at *
      exact ⟨hcap, hpool, hcount⟩
    · simp at hstep
  | cancel =>
    simp only [step, Option.some.injEq] at hstep
    subst hstep
    exact ⟨hcap, hpool, hcount⟩
  | observe ev =>
    simp only [step] at hstep
    split at hstep
    · rename_i hen
      cases ev with
      | ctxDone =>
        simp only [observeConnCase, Option.some.injEq] at hstep
        subst hstep
        simp only [TokenInv, System.pool, System.inFlight] at *
        simp at *
        refine ⟨hcap, ?_, ?_⟩ <;> omega
      | tick p =>
        by_cases hp : (ping p).isNil = true
        · simp only [observeConnCase_ok p s.w hp, Option.some.injEq] at hstep
          subst hstep
          exact ⟨hcap, hpool, hcount⟩
        · simp only [Bool.not_eq_true] at hp
          have hroom : s.w.l.connQuotes.len < s.w.l.connQuotes.cap := by
            simp only [System.pool, System.inFlight] at hpool
            omega
          simp only [observeConnCase_fail p s.w hp hroom, Option.some.injEq] at hstep
          subst hstep
          simp only [TokenInv, System.pool, System.inFlight] at *
          simp at *
          refine ⟨hcap, ?_, ?_⟩ <;> omega
    · simp at hstep

theorem tokenInv_exec (n : Nat) (acts : List Action) :
    ∀ s s1 : System, TokenInv n s → exec acts s = some s1 → TokenInv n s1 := by
  induction acts with
  | nil =>
    intro s s1 hinv h
    simp only [exec, Option.some.injEq] at h
    subst h
    exact hinv
  | cons a rest ih =>
    intro s s1 hinv h
    simp only [exec] at h
    cases hs : step a s with
    | none => simp [hs] at h
    | some s2 =>
      simp only [hs] at h
      exact ih s2 s1 (tokenInv_step n a s s2 hinv hs) h

/-- C1: for every `maxConns >= 0`, `NewListener` returns a listener whose pool
holds `maxConns` tokens, and after every schedule of listener steps (token
withdrawal, successful or failed accept, supervisor events, cancellation):
the tokens withdrawn and not yet returned are the tokens in flight and are at
most `maxConns`; pool plus tokens in flight is exactly `maxConns`; at most
`maxConns` connections are supervised; an accept step is possible only while
`Run` holds a withdrawn token, the pool then being below `maxConns`; a send
that returns a token never blocks; and with `maxConns = 1`, while a connection
is supervised `Run` is not accepting and cannot withdraw a token. -/
theorem admission_bound (maxConns : Int) (h : 0 ≤ maxConns) :
    ∃ l : Listener, NewListener maxConns = .returned l ∧
      l.connQuotes.len = maxConns.toNat ∧ l.connQuotes.cap = maxConns.toNat ∧
      ∀ (acts : List Action) (s : System), exec acts (System.init l) = some s →
        s.w.l.connQuotes.received + maxConns.toNat
          = s.w.l.connQuotes.sent + s.inFlight ∧
        s.inFlight ≤ maxConns.toNat ∧
        s.pool + s.inFlight = maxConns.toNat ∧
        s.observing ≤ maxConns.toNat ∧
        (∀ e : GoError, (step (.runAccept e) s).isSome = true ↔ s.run = .accepting) ∧
        (s.run = .accepting → s.pool + s.observing + 1 ≤ maxConns.toNat) ∧
        (0 < s.observing → ∀ p : PingCalls, (step (.observe (.tick p)) s).isSome = true) ∧
        (maxConns = 1 → 0 < s.observing →
          s.run ≠ .accepting ∧ step .runRecv s = none) := by
  refine ⟨_, NewListener_returns maxConns h, rfl, rfl, ?_⟩
  intro acts s hs
  have hinv := tokenInv_exec maxConns.toNat acts _ s (tokenInv_init maxConns.toNat) hs
  obtain ⟨hcap, hpool, hcount⟩ := hinv
  have hroomA : s.run = .accepting → s.w.l.connQuotes.len < s.w.l.connQuotes.cap := by
    intro hrun
    simp only [System.pool, System.inFlight, hrun] at hpool
    simp at hpool
    omega
  have hroomO : 0 < s.observing → s.w.l.connQuotes.len < s.w.l.connQuotes.cap := by
    intro hobs
    simp only [System.pool, System.inFlight] at hpool
    omega
  refine ⟨hcount, by omega, hpool, ?_, ?_, ?_, ?_, ?_⟩
  · simp only [System.inFlight] at hpool
    omega
  · intro e
    constructor
    · intro hsome
      by_contra hrun
      simp [step, hrun] at hsome
    · intro hrun
      by_cases he : e.isNil = true
      · simp [step, hrun, runCase, processConnQuote, he, isNil_nil]
      · simp only [Bool.not_eq_true] at he
        simp [step, hrun, runCase, processConnQuote, he, errorsWrap_isNil,
          generateConnQuotes_one _ (hroomA hrun)]
  · intro hrun
    simp only [System.pool, System.inFlight, hrun] at hpool ⊢
    simp at hpool
    omega
  · intro hobs p
    by_cases hp : (ping p).isNil = true
    · simp [step, hobs, observeConnCase_ok p s.w hp]
    · simp only [Bool.not_eq_true] at hp
      simp [step, hobs, observeConnCase_fail p s.w hp (hroomO hobs)]
  · intro hone hobs
    have hn : maxConns.toNat = 1 := by simp [hone]
    have hnot : s.run ≠ .accepting := by
      intro hrun
      simp only [System.pool, System.inFlight, hrun] at hpool
      simp at hpool
      omega
    refine ⟨hnot, ?_⟩
    have hlen : ¬ 0 < s.w.l.connQuotes.len := by
      simp only [System.pool, System.inFlight] at hpool
      omega
    simp only [step, Chan.recv, if_neg hlen]
    split <;> rfl

theorem admission_bound_witness :
    (0 : Int) ≤ 1 ∧
    ∃ l : Listener, NewListener 1 = .returned l ∧
      ∃ s : System, exec [.runRecv, .runAccept acceptFailure, .runRecv, .runAccept .nil,
          .observe (.tick pingOk)] (System.init l) = some s ∧
        s.observing = 1 ∧ s.pool = 0 ∧ s.inFlight = 1 ∧ step .runRecv s = none := by
  refine ⟨by decide, ?_⟩
  obtain ⟨l, hl, _, _, hall⟩ := admission_bound 1 (by decide)
  have hl2 : l = { connQuotes := { cap := 1, len := 1, sent := 1, received := 0 },
                   maxConns := 0 } := by
    have h2 : NewListener 1 = .returned
        { connQuotes := { cap := 1, len := 1, sent := 1, received := 0 }, maxConns := 0 } := by
      decide
    rw [h2] at hl
    exact (Outcome.returned.inj hl).symm
  subst hl2
  have hex : ∃ s : System, exec [.runRecv, .runAccept acceptFailure, .runRecv, .runAccept .nil,
      .observe (.tick pingOk)]
      (System.init { connQuotes := { cap := 1, len := 1, sent := 1, received := 0 },
                     maxConns := 0 }) = some s ∧ s.observing = 1 := by
    refine ⟨_, rfl, ?_⟩
    decide
  obtain ⟨s, hs, hobs⟩ := hex
  obtain ⟨_, _, hpool, _, _, _, _, hone⟩ := hall _ s hs
  have hpool2 : s.pool + s.inFlight = 1 := hpool
  have hfl : 1 ≤ s.inFlight := by
    simp only [System.inFlight]
    omega
  exact ⟨_, hl, s, hs, hobs, by omega, by omega, (hone rfl (by omega)).2⟩

theorem exists_some_eq {α : Type} {o : Option α} {a : α} (h : o = some a) :
    ∃ b, o = some b ∧ a = b := ⟨a, h, rfl⟩

theorem step_runRecv (s : System) (hrun : s.run = .selecting) (hpos : 0 < s.pool) :
    step .runRecv s = some
      { s with w := { s.w with l := { s.w.l with connQuotes :=
                        { s.w.l.connQuotes with len := s.w.l.connQuotes.len - 1,
                                                received := s.w.l.connQuotes.received + 1 } } },
               run := .accepting } := by
  have hlen : 0 < s.w.l.connQuotes.len := hpos
  simp [step, hrun, Chan.recv, hlen]

theorem step_runAccept_fail (s : System) (e : GoError) (hrun : s.run = .accepting)
    (he : e.isNil = false) (hroom : s.w.l.connQuotes.len < s.w.l.connQuotes.cap) :
    step (.runAccept e) s = some
      { s with w := { s.w with
                        l := { s.w.l with connQuotes :=
                          { s.w.l.connQuotes with len := s.w.l.connQuotes.len + 1,
                                                  sent := s.w.l.connQuotes.sent + 1 } },
                        totalConnectionsCounter := s.w.totalConnectionsCounter + 1,
                        activeConnsGauge := s.w.activeConnsGauge + 1 },
               run := .selecting } := by
  simp [step, hrun, runCase, processConnQuote, he, errorsWrap_isNil,
    generateConnQuotes_one _ hroom]

theorem step_runAccept_ok (s : System) (hrun : s.run = .accepting) :
    step (.runAccept .nil) s = some
      { s with w := { s.w with
                        totalConnectionsCounter := s.w.totalConnectionsCounter + 1,
                        activeConnsGauge := s.w.activeConnsGauge + 1 },
               run := .selecting,
               observing := s.observing + 1,
               accepted := s.accepted + 1 } := by
  simp [step, hrun, runCase, processConnQuote, isNil_nil]

/-- C4: from a state where `Run` waits in its select with a token in the pool,
a withdrawal followed by a failed accept puts the token back: the pool is as
before the withdrawal, nothing is in flight that was not before, and `Run` is
back in its select (it has not returned).  A further withdrawal followed by a
successful accept leaves exactly one token more in flight and one more
supervised connection: two receives and one send on the quota channel. -/
theorem failed_accept_returns_token (s : System) (e : GoError)
    (hrun : s.run = .selecting) (hpos : 0 < s.pool) (hcap : s.pool ≤ s.w.l.connQuotes.cap)
    (he : e.isNil = false) :
    ∃ s1 s2 s3 s4 : System,
      step .runRecv s = some s1 ∧ s1.pool + 1 = s.pool ∧
      step (.runAccept e) s1 = some s2 ∧
      s2.pool = s.pool ∧ s2.inFlight = s.inFlight ∧ s2.run = .selecting ∧
      s2.observing = s.observing ∧
      step .runRecv s2 = some s3 ∧ step (.runAccept .nil) s3 = some s4 ∧
      exec [.runRecv, .runAccept e, .runRecv, .runAccept .nil] s = some s4 ∧
      s4.pool + 1 = s.pool ∧ s4.inFlight = s.inFlight + 1 ∧ s4.run = .selecting ∧
      s4.observing = s.observing + 1 ∧
      s4.w.l.connQuotes.received = s.w.l.connQuotes.received + 2 ∧
      s4.w.l.connQuotes.sent = s.w.l.connQuotes.sent + 1 := by
  have hlen : 0 < s.w.l.connQuotes.len := hpos
  have hcap2 : s.w.l.connQuotes.len ≤ s.w.l.connQuotes.cap := hcap
  obtain ⟨s1, h1, hs1⟩ := exists_some_eq (step_runRecv s hrun hpos)
  obtain ⟨s2, h2, hs2⟩ := exists_some_eq
    (step_runAccept_fail s1 e (by rw [← hs1]) he (by rw [← hs1]; simp only; omega))
  have hpool2 : s2.pool = s.pool := by
    rw [← hs2, ← hs1]
    simp only [System.pool]
    omega
  obtain ⟨s3, h3, hs3⟩ := exists_some_eq
    (step_runRecv s2 (by rw [← hs2]) (by rw [hpool2]; exact hpos))
  have h4 := step_runAccept_ok s3 (by rw [← hs3])
  refine ⟨s1, s2, s3, _, h1, ?_, h2, hpool2, ?_, ?_, ?_, h3, h4, ?_, ?_, ?_, ?_, ?_, ?_, ?_⟩
  · rw [← hs1]; simp only [System.pool]; omega
  · rw [← hs2, ← hs1]; simp [System.inFlight, hrun]
  · rw [← hs2]
  · rw [← hs2, ← hs1]
  · simp [exec, h1, h2, h3, h4]
  · rw [← hs3, ← hs2, ← hs1]; simp only [System.pool]; omega
  · rw [← hs3, ← hs2, ← hs1]; simp [System.inFlight, hrun]; omega
  · rfl
  · rw [← hs3, ← hs2, ← hs1]
  · rw [← hs3, ← hs2, ← hs1]
  · rw [← hs3, ← hs2, ← hs1]

theorem failed_accept_returns_token_witness :
    idleSystem.run = .selecting ∧ 0 < idleSystem.pool ∧ acceptFailure.isNil = false ∧
    ∃ s2 s4 : System,
      exec [.runRecv, .runAccept acceptFailure] idleSystem = some s2 ∧
      s2.pool = 5 ∧ s2.run = .selecting ∧
      exec [.runRecv, .runAccept acceptFailure, .runRecv, .runAccept .nil] idleSystem
        = some s4 ∧
      s4.pool = 4 ∧ s4.observing = 1 := by
  obtain ⟨s1, s2, s3, s4, h1, _, h2, hp2, _, hr2, _, _, _, hex, hp4, _, _, ho4, _, _⟩ :=
    failed_accept_returns_token idleSystem acceptFailure (by decide) (by decide) (by decide)
      (by decide)
  refine ⟨by decide, by decide, by decide, s2, s4, ?_, ?_, hr2, hex, ?_, ?_⟩
  · simp [exec, h1, h2]
  · rw [hp2]; decide
  · have : idleSystem.pool = 5 := by decide
    omega
  · rw [ho4]; decide

/-- C3 (the code departs from it): on a capacity-5 listener `Run` withdraws a
token and `AcceptTCP` fails; no connection was accepted and none is supervised,
yet `total_connections` and `active_connections` are both 1. -/
theorem failed_accept_is_counted :
    ∃ s : System, exec [.runRecv, .runAccept acceptFailure] idleSystem = some s ∧
      s.accepted = 0 ∧ s.observing = 0 ∧
      s.w.totalConnectionsCounter = 1 ∧ s.w.activeConnsGauge = 1 :=
  ⟨_, rfl, by decide⟩

/-- Whenever a connection is supervised the quota channel has room, so the
send that returns its token does not block. -/
theorem supervised_has_room (maxConns : Int) (h : 0 ≤ maxConns) (l : Listener)
    (hl : NewListener maxConns = .returned l) (acts : List Action) (s : System)
    (hs : exec acts (System.init l) = some s) (hobs : 0 < s.observing) :
    s.w.l.connQuotes.len < s.w.l.connQuotes.cap := by
  rw [NewListener_returns maxConns h] at hl
  have hl2 := Outcome.returned.inj hl
  subst hl2
  obtain ⟨hcap, hpool, _⟩ :=
    tokenInv_exec maxConns.toNat acts _ s (tokenInv_init maxConns.toNat) hs
  simp only [System.pool, System.inFlight] at hpool
  omega

end Soax
